import Mathlib

/-!
Verification development for the htm.core learning substrate: the
Connections synapse/segment graph store and the TemporalMemory sequence
engine.  The algorithmic core of the repository is a systems-language
library whose sources are not part of this tree; every definition below
is therefore modelled from the specification document, faithful to its
words, and the theorems settle the spec's testable properties against
that model.  Permanences are modelled as exact rationals.
-/

set_option maxHeartbeats 1000000

namespace HTM

/-- Clamp a rational permanence into the interval `[0, 1]`. -/
def clamp01 (p : ℚ) : ℚ := min 1 (max 0 p)

/-- Modelled from the spec: a synapse is owned by exactly one segment,
references exactly one presynaptic cell index, and carries a permanence
value clamped to `[0,1]`.  The `synId` is the stable opaque handle. -/
structure Synapse where
  synId : Nat
  presynapticCell : Nat
  permanence : ℚ
deriving DecidableEq, Repr

/-- Modelled from the spec: a segment is owned by exactly one cell and
holds an ordered collection of synapses.  The `segId` is the stable
opaque handle, valid from creation until explicit destruction. -/
structure Segment where
  segId : Nat
  cell : Nat
  synapses : List Synapse
deriving DecidableEq, Repr

/-- Modelled from the spec: the Connections engine owns the
cell→segment→synapse graph.  Constructed with `(numCells,
connectedPermanenceThreshold)`.  Segments are kept in creation order
(oldest first); fresh handles come from the monotone counters. -/
structure Connections where
  numCells : Nat
  connectedThreshold : ℚ
  segments : List Segment
  nextSegmentId : Nat
  nextSynapseId : Nat
deriving DecidableEq, Repr

/-- Error kinds of the engine: `InvalidArgument` for out-of-range
indices or zero-valued required parameters, `NotFound` for operating on
an absent handle. -/
inductive ConnError where
  | InvalidArgument
  | NotFound
deriving DecidableEq, Repr

namespace Connections

/-- Construct an empty Connections instance. -/
def init (numCells : Nat) (threshold : ℚ) : Connections :=
  ⟨numCells, threshold, [], 0, 0⟩

/-- Query: total number of segments. -/
def numSegments (c : Connections) : Nat := c.segments.length

/-- Query: segment handles owned by `cell`, in creation order. -/
def segmentsForCell (c : Connections) (cell : Nat) : List Nat :=
  (c.segments.filter (fun s => s.cell = cell)).map (fun s => s.segId)

/-- Query: the ordered synapse list of a segment handle ([] if the
handle does not resolve). -/
def synapsesForSegment (c : Connections) (sid : Nat) : List Synapse :=
  ((c.segments.find? (fun s => s.segId = sid)).map (fun s => s.synapses)).getD []

/-- Query: total number of synapses in the graph. -/
def numSynapses (c : Connections) : Nat :=
  (c.segments.map (fun s => s.synapses.length)).sum

/-- Query: number of synapses on one segment. -/
def numSynapsesOnSegment (c : Connections) (sid : Nat) : Nat :=
  (c.synapsesForSegment sid).length

/-- Query: the permanence carried by a synapse handle (0 if absent). -/
def permanenceForSynapse (c : Connections) (synId : Nat) : ℚ :=
  (((c.segments.flatMap (fun s => s.synapses)).find?
      (fun s => s.synId = synId)).map (fun s => s.permanence)).getD 0

/-- Query: the presynaptic cell of a synapse handle (0 if absent). -/
def presynapticCellForSynapse (c : Connections) (synId : Nat) : Nat :=
  (((c.segments.flatMap (fun s => s.synapses)).find?
      (fun s => s.synId = synId)).map (fun s => s.presynapticCell)).getD 0

/-- Modelled from the spec: `createSegment(cell, maxSegmentsPerCell)`.
Fails with `InvalidArgument` if `cell` is out of `[0,numCells)` or
`maxSegmentsPerCell = 0`.  While the cell already owns at least
`maxSegmentsPerCell` segments, the least-recently-created segment on
that cell is destroyed first (closed form: the oldest
`owned + 1 - maxSegmentsPerCell` are dropped); then a fresh segment
owning zero synapses is appended. -/
def createSegment (c : Connections) (cell k : Nat) :
    Except ConnError (Nat × Connections) :=
  if c.numCells ≤ cell ∨ k = 0 then .error .InvalidArgument
  else
    let owned := c.segments.filter (fun s => s.cell = cell)
    let doomed := (owned.take (owned.length + 1 - k)).map (fun s => s.segId)
    let kept := c.segments.filter (fun s => ¬ s.segId ∈ doomed)
    .ok (c.nextSegmentId,
      { c with
        segments := kept ++ [⟨c.nextSegmentId, cell, []⟩],
        nextSegmentId := c.nextSegmentId + 1 })

/-- Modelled from the spec: `createSynapse(segment, presynapticCell,
permanence)`.  If a synapse from `presynapticCell` already exists on the
segment, updates its permanence to the max of the existing and the new
value and returns the existing handle; otherwise creates a new synapse
with the given permanence clamped to `[0,1]`.  Fails with
`InvalidArgument` on an out-of-range presynaptic cell or an invalid
segment handle. -/
def createSynapse (c : Connections) (sid presyn : Nat) (perm : ℚ) :
    Except ConnError (Nat × Connections) :=
  if c.numCells ≤ presyn then .error .InvalidArgument
  else
    match c.segments.find? (fun s => s.segId = sid) with
    | none => .error .InvalidArgument
    | some seg =>
      match seg.synapses.find? (fun s => s.presynapticCell = presyn) with
      | some syn =>
        .ok (syn.synId,
          { c with
            segments := c.segments.map (fun sg =>
              if sg.segId = sid then
                { sg with synapses := sg.synapses.map (fun s =>
                    if s.presynapticCell = presyn then
                      { s with permanence := max s.permanence (clamp01 perm) }
                    else s) }
              else sg) })
      | none =>
        .ok (c.nextSynapseId,
          { c with
            segments := c.segments.map (fun sg =>
              if sg.segId = sid then
                { sg with synapses :=
                    sg.synapses ++ [⟨c.nextSynapseId, presyn, clamp01 perm⟩] }
              else sg),
            nextSynapseId := c.nextSynapseId + 1 })

/-- Modelled from the spec: `destroySegment` removes the segment and all
its synapses; an invalid handle fails with `NotFound`. -/
def destroySegment (c : Connections) (sid : Nat) :
    Except ConnError Connections :=
  match c.segments.find? (fun s => s.segId = sid) with
  | none => .error .NotFound
  | some _ => .ok { c with segments := c.segments.filter (fun s => ¬ s.segId = sid) }

/-- Modelled from the spec: `destroySynapse` removes the synapse from
its owning segment; an invalid handle fails with `NotFound`. -/
def destroySynapse (c : Connections) (synId : Nat) :
    Except ConnError Connections :=
  if (c.segments.flatMap (fun s => s.synapses)).any (fun s => s.synId = synId) then
    .ok { c with segments := c.segments.map (fun sg =>
      { sg with synapses := sg.synapses.filter (fun s => ¬ s.synId = synId) }) }
  else .error .NotFound

/-- Apply the Hebbian permanence update of `adaptSegment` to one ordered
synapse list: a synapse whose presynaptic cell is a member of
`activeInput` moves up by `inc`, every other synapse decays by `dec`,
both saturating inside `[0,1]`. -/
def adaptSynapses (syns : List Synapse) (activeInput : List Nat)
    (inc dec : ℚ) : List Synapse :=
  syns.map (fun s =>
    if s.presynapticCell ∈ activeInput then
      { s with permanence := clamp01 (s.permanence + inc) }
    else
      { s with permanence := clamp01 (s.permanence - dec) })

/-- Modelled from the spec: `adaptSegment(segment, activeInput,
increment, decrement, pruneZeroSynapses, segmentThreshold)`.  Every
synapse on the segment is updated by the Hebbian rule; if
`pruneZeroSynapses` is set, synapses whose permanence is now ≤ 0 are
removed, and if the remaining synapse count drops below
`segmentThreshold` the whole segment is destroyed.  An unknown handle
leaves the state unchanged. -/
def adaptSegment (c : Connections) (sid : Nat) (activeInput : List Nat)
    (inc dec : ℚ) (prune : Bool) (segmentThreshold : Nat) : Connections :=
  match c.segments.find? (fun s => s.segId = sid) with
  | none => c
  | some seg =>
    let adapted := adaptSynapses seg.synapses activeInput inc dec
    if prune then
      let keptSyns := adapted.filter (fun s => 0 < s.permanence)
      if keptSyns.length < segmentThreshold then
        { c with segments := c.segments.filter (fun s => ¬ s.segId = sid) }
      else
        { c with segments := c.segments.map (fun sg =>
            if sg.segId = sid then { sg with synapses := keptSyns } else sg) }
    else
      { c with segments := c.segments.map (fun sg =>
          if sg.segId = sid then { sg with synapses := adapted } else sg) }

/-- The declarative per-segment activity count: the number of synapses
on the segment whose presynaptic cell is a member of `activeInput`,
restricted to connected synapses (permanence ≥ threshold) when
`connectedOnly` is set. -/
def segmentActivity (c : Connections) (activeInput : List Nat)
    (connectedOnly : Bool) (seg : Segment) : Nat :=
  (seg.synapses.filter (fun s =>
    decide (s.presynapticCell ∈ activeInput) &&
      (!connectedOnly || decide (c.connectedThreshold ≤ s.permanence)))).length

/-- Modelled from the spec: the reverse presynaptic-cell→synapse index,
restricted to one presynaptic cell `a`: the segment handle of every
synapse in the graph whose presynaptic cell is `a`, paired with that
synapse's permanence. -/
def reverseIndex (c : Connections) (a : Nat) : List (Nat × ℚ) :=
  c.segments.flatMap (fun seg =>
    (seg.synapses.filter (fun s => s.presynapticCell = a)).map
      (fun s => (seg.segId, s.permanence)))

/-- Modelled from the spec: `computeActivity(activeInput,
connectedOnly)` walks the reverse presynaptic-cell→synapse index of each
input cell and bumps the owning segment's count for every traversed
synapse (every synapse when `connectedOnly` is unset, only connected
ones when it is set).  The result maps each segment handle to its
count. -/
def computeActivity (c : Connections) (activeInput : List Nat)
    (connectedOnly : Bool) : Nat → Nat :=
  fun sid =>
    (activeInput.flatMap (fun a =>
      (c.reverseIndex a).filter (fun p =>
        !connectedOnly || decide (c.connectedThreshold ≤ p.2)))).countP
      (fun p => p.1 = sid)

/-- Well-formedness invariant of the modelled engine: segment handles
are distinct and below the segment counter, synapse handles are
globally distinct and below the synapse counter, and within one segment
at most one synapse exists per presynaptic cell. -/
def WF (c : Connections) : Prop :=
  (c.segments.map (fun s => s.segId)).Nodup ∧
  (∀ seg ∈ c.segments, seg.segId < c.nextSegmentId) ∧
  ((c.segments.flatMap (fun s => s.synapses)).map (fun s => s.synId)).Nodup ∧
  (∀ seg ∈ c.segments, ∀ syn ∈ seg.synapses, syn.synId < c.nextSynapseId) ∧
  (∀ seg ∈ c.segments, (seg.synapses.map (fun s => s.presynapticCell)).Nodup)

instance decidableWF (c : Connections) : Decidable c.WF := by
  unfold WF
  infer_instance

end Connections

/-- Accumulator threaded through the per-column pass of
`activateCells`: the active cells, winner cells, evolving graph, and
the number of bursting (unpredicted) active columns seen so far. -/
structure StepState where
  act : List Nat
  win : List Nat
  conn : Connections
  burst : Nat
deriving DecidableEq, Repr

/-- Modelled from the spec: the TemporalMemory sequence engine — its
construction parameters, one Connections instance, and the transient
per-step cell sets.  `anomaly` holds the raw anomaly score of the last
completed step. -/
structure TemporalMemory where
  numColumns : Nat
  cellsPerColumn : Nat
  activationThreshold : Nat
  minThreshold : Nat
  maxNewSynapseCount : Nat
  initialPermanence : ℚ
  permanenceIncrement : ℚ
  permanenceDecrement : ℚ
  predictedSegmentDecrement : ℚ
  maxSegmentsPerCell : Nat
  maxSynapsesPerSegment : Nat
  connections : Connections
  activeCells : List Nat
  winnerCells : List Nat
  predictiveCells : List Nat
  anomaly : ℚ
deriving DecidableEq, Repr

namespace TemporalMemory

/-- The column owning a cell (`numCells = numColumns × cellsPerColumn`,
cells of one column are contiguous). -/
def columnForCell (tm : TemporalMemory) (cell : Nat) : Nat :=
  cell / tm.cellsPerColumn

/-- The cells grouped into one column. -/
def cellsForColumn (tm : TemporalMemory) (col : Nat) : List Nat :=
  (List.range tm.cellsPerColumn).map (fun i => col * tm.cellsPerColumn + i)

/-- Modelled from the spec, phase 1: `activateDendrites` runs
`computeActivity` on the distal input (the previous step's active
cells); a cell is predictive iff it owns at least one segment whose
active (connected) count reaches `activationThreshold`. -/
def activateDendrites (tm : TemporalMemory) (_learn : Bool) : TemporalMemory :=
  let counts := tm.connections.computeActivity tm.activeCells true
  { tm with predictiveCells :=
      ((tm.connections.segments.filter
          (fun seg => tm.activationThreshold ≤ counts seg.segId)).map
        (fun seg => seg.cell)).dedup }

/-- Output accessor: the predictive-cell set of the last
`activateDendrites` call. -/
def getPredictiveCells (tm : TemporalMemory) : List Nat := tm.predictiveCells

/-- Output accessor: the active-cell set of the last step. -/
def getActiveCells (tm : TemporalMemory) : List Nat := tm.activeCells

/-- Modelled from the spec: grow up to `maxNewSynapseCount` new synapses
on a segment, from the segment toward a sample of the previous step's
winner cells (the model samples deterministically: the first candidates
without an existing synapse), respecting `maxSynapsesPerSegment`. -/
def growSynapses (tm : TemporalMemory) (conn : Connections) (sid : Nat)
    (prevWinner : List Nat) : Connections :=
  match conn.segments.find? (fun s => s.segId = sid) with
  | none => conn
  | some seg =>
    let existing := seg.synapses.map (fun s => s.presynapticCell)
    let candidates := prevWinner.filter (fun w => ¬ w ∈ existing)
    let room := min tm.maxNewSynapseCount
      (tm.maxSynapsesPerSegment - seg.synapses.length)
    (candidates.take room).foldl (fun cn w =>
      match cn.createSynapse sid w tm.initialPermanence with
      | .ok (_, cn2) => cn2
      | .error _ => cn) conn

/-- Modelled from the spec, one active column of phase 2.  A column with
predictive cells activates exactly those cells (reinforcing every
predicting segment when learning); a column with none bursts: all its
cells activate, the winner is the cell owning the best-matching segment
when one reaches `minThreshold` and otherwise the least-loaded cell
(which grows a brand-new segment when learning), and the burst counter
feeding the anomaly score is incremented. -/
def processColumn (tm : TemporalMemory) (prevActive prevWinner : List Nat)
    (activeCounts matchingCounts : Nat → Nat) (preSegs : List Segment)
    (learn : Bool) (st : StepState) (col : Nat) : StepState :=
  let predHere := tm.predictiveCells.filter (fun cl => tm.columnForCell cl = col)
  if predHere = [] then
    let colCells := tm.cellsForColumn col
    let colSegs := preSegs.filter (fun seg => seg.cell ∈ colCells)
    let bestMatch := colSegs.foldl (fun best seg =>
      match best with
      | none =>
        if tm.minThreshold ≤ matchingCounts seg.segId then some seg else none
      | some b =>
        if matchingCounts b.segId < matchingCounts seg.segId then some seg
        else best) none
    match bestMatch with
    | some bseg =>
      let conn2 :=
        if learn then
          tm.growSynapses
            (st.conn.adaptSegment bseg.segId prevActive
              tm.permanenceIncrement tm.permanenceDecrement true 0)
            bseg.segId prevWinner
        else st.conn
      ⟨st.act ++ colCells, st.win ++ [bseg.cell], conn2, st.burst + 1⟩
    | none =>
      let winner := (colCells.foldl (fun best cl =>
        match best with
        | none => some cl
        | some b =>
          if (st.conn.segmentsForCell cl).length <
              (st.conn.segmentsForCell b).length then some cl
          else best) none).getD 0
      let conn2 :=
        if learn then
          match st.conn.createSegment winner tm.maxSegmentsPerCell with
          | .ok (sid, cn) => tm.growSynapses cn sid prevWinner
          | .error _ => st.conn
        else st.conn
      ⟨st.act ++ colCells, st.win ++ [winner], conn2, st.burst + 1⟩
  else
    let predSegs := (preSegs.filter (fun seg =>
      decide (seg.cell ∈ predHere) &&
        decide (tm.activationThreshold ≤ activeCounts seg.segId))).map
      (fun s => s.segId)
    let conn2 :=
      if learn then
        predSegs.foldl (fun cn sid =>
          cn.adaptSegment sid prevActive tm.permanenceIncrement
            tm.permanenceDecrement true 0) st.conn
      else st.conn
    ⟨st.act ++ predHere, st.win ++ predHere, conn2, st.burst⟩

/-- Modelled from the spec, phase 2: `activateCells` walks the active
columns (correctly-predicted and bursting handling per column), then
punishes falsely predicted columns when learning with a positive
`predictedSegmentDecrement`, and sets the anomaly score to the fraction
of active columns that burst (0 by convention when no column is
active). -/
def activateCells (tm : TemporalMemory) (activeColumns : List Nat)
    (learn : Bool) : TemporalMemory :=
  let prevActive := tm.activeCells
  let activeCounts := tm.connections.computeActivity prevActive true
  let matchingCounts := tm.connections.computeActivity prevActive false
  let res := activeColumns.foldl
    (tm.processColumn prevActive tm.winnerCells activeCounts matchingCounts
      tm.connections.segments learn)
    ⟨[], [], tm.connections, 0⟩
  let conn3 :=
    if learn && decide (0 < tm.predictedSegmentDecrement) then
      let punished := (tm.connections.segments.filter (fun seg =>
        decide (¬ tm.columnForCell seg.cell ∈ activeColumns) &&
          decide (seg.cell ∈ tm.predictiveCells) &&
          decide (tm.activationThreshold ≤ activeCounts seg.segId))).map
        (fun s => s.segId)
      punished.foldl (fun cn sid =>
        cn.adaptSegment sid prevActive (- tm.predictedSegmentDecrement) 0
          true 0) res.conn
    else res.conn
  { tm with
    connections := conn3,
    activeCells := res.act,
    winnerCells := res.win,
    anomaly :=
      if activeColumns = [] then 0
      else (res.burst : ℚ) / (activeColumns.length : ℚ) }

/-- Modelled from the spec: one full step is phase 1 followed by
phase 2. -/
def compute (tm : TemporalMemory) (activeColumns : List Nat)
    (learn : Bool) : TemporalMemory :=
  (tm.activateDendrites learn).activateCells activeColumns learn

end TemporalMemory

/-! ## Serialization model

Modelled from the spec: the persisted state is a deterministic flat
format capturing, for every segment, its owning cell and ordered
synapse list with exact presynaptic-cell index and permanence, plus the
engine parameters and transient sets; the logical state must round-trip
losslessly.  The serialization framing itself is out of the spec's
scope, so the model uses one flat stream of rationals. -/

/-- Interpret a serialized scalar as a natural number. -/
def ratToNat (q : ℚ) : Nat := q.num.toNat

/-- Serialize one synapse: handle, presynaptic cell, permanence. -/
def encodeSynapse (s : Synapse) : List ℚ :=
  [(s.synId : ℚ), (s.presynapticCell : ℚ), s.permanence]

/-- Serialize an ordered synapse list. -/
def encodeSynapses (syns : List Synapse) : List ℚ :=
  syns.flatMap encodeSynapse

/-- Serialize one segment: handle, owning cell, synapse count, then the
synapses. -/
def encodeSegment (seg : Segment) : List ℚ :=
  (seg.segId : ℚ) :: (seg.cell : ℚ) :: (seg.synapses.length : ℚ) ::
    encodeSynapses seg.synapses

/-- Serialize a segment list in creation order. -/
def encodeSegments (segs : List Segment) : List ℚ :=
  segs.flatMap encodeSegment

/-- Serialize a cell list with a length header. -/
def encodeNats (l : List Nat) : List ℚ :=
  (l.length : ℚ) :: l.map (fun n : Nat => (n : ℚ))

/-- Serialize the full Connections graph state. -/
def Connections.serialize (c : Connections) : List ℚ :=
  (c.numCells : ℚ) :: c.connectedThreshold :: (c.nextSegmentId : ℚ) ::
    (c.nextSynapseId : ℚ) :: (c.segments.length : ℚ) ::
    encodeSegments c.segments

/-- Parse a counted run of synapses, returning the leftover stream. -/
def parseSynapses : Nat → List ℚ → Option (List Synapse × List ℚ)
  | 0, l => some ([], l)
  | n + 1, i :: p :: q :: rest =>
    match parseSynapses n rest with
    | some (syns, rem) => some (⟨ratToNat i, ratToNat p, q⟩ :: syns, rem)
    | none => none
  | _ + 1, _ => none

/-- Parse a counted run of segments, returning the leftover stream. -/
def parseSegments : Nat → List ℚ → Option (List Segment × List ℚ)
  | 0, l => some ([], l)
  | n + 1, sid :: cell :: m :: rest =>
    match parseSynapses (ratToNat m) rest with
    | some (syns, rem) =>
      match parseSegments n rem with
      | some (segs, rem2) =>
        some (⟨ratToNat sid, ratToNat cell, syns⟩ :: segs, rem2)
      | none => none
    | none => none
  | _ + 1, _ => none

/-- Parse a counted run of naturals, returning the leftover stream. -/
def parseNats : Nat → List ℚ → Option (List Nat × List ℚ)
  | 0, l => some ([], l)
  | n + 1, a :: rest =>
    match parseNats n rest with
    | some (ns, rem) => some (ratToNat a :: ns, rem)
    | none => none
  | _ + 1, [] => none

/-- Parse a length-headed cell list. -/
def parseNatList (l : List ℚ) : Option (List Nat × List ℚ) :=
  match l with
  | n :: rest => parseNats (ratToNat n) rest
  | [] => none

/-- Deserialize a Connections graph, returning the leftover stream. -/
def Connections.deserialize (l : List ℚ) :
    Option (Connections × List ℚ) :=
  match l with
  | nc :: th :: nsg :: nsy :: cnt :: rest =>
    match parseSegments (ratToNat cnt) rest with
    | some (segs, rem) =>
      some (⟨ratToNat nc, th, segs, ratToNat nsg, ratToNat nsy⟩, rem)
    | none => none
  | _ => none

/-- Serialize the full TemporalMemory state: parameters, the
Connections graph, the transient cell sets, and the anomaly score. -/
def TemporalMemory.serialize (tm : TemporalMemory) : List ℚ :=
  (tm.numColumns : ℚ) :: (tm.cellsPerColumn : ℚ) ::
    (tm.activationThreshold : ℚ) :: (tm.minThreshold : ℚ) ::
    (tm.maxNewSynapseCount : ℚ) :: tm.initialPermanence ::
    tm.permanenceIncrement :: tm.permanenceDecrement ::
    tm.predictedSegmentDecrement :: (tm.maxSegmentsPerCell : ℚ) ::
    (tm.maxSynapsesPerSegment : ℚ) ::
    (Connections.serialize tm.connections ++
      (encodeNats tm.activeCells ++ (encodeNats tm.winnerCells ++
        (encodeNats tm.predictiveCells ++ [tm.anomaly]))))

/-- Deserialize a full TemporalMemory state. -/
def TemporalMemory.deserialize (l : List ℚ) : Option TemporalMemory :=
  match l with
  | q1 :: q2 :: q3 :: q4 :: q5 :: q6 :: q7 :: q8 :: q9 :: q10 :: q11 ::
      rest =>
    match Connections.deserialize rest with
    | some (conn, rem1) =>
      match parseNatList rem1 with
      | some (act, rem2) =>
        match parseNatList rem2 with
        | some (win, rem3) =>
          match parseNatList rem3 with
          | some (pred, rem4) =>
            match rem4 with
            | [anom] =>
              some ⟨ratToNat q1, ratToNat q2, ratToNat q3, ratToNat q4,
                ratToNat q5, q6, q7, q8, q9, ratToNat q10, ratToNat q11,
                conn, act, win, pred, anom⟩
            | _ => none
          | none => none
        | none => none
      | none => none
    | none => none
  | _ => none

/-! ## Concrete witness instances -/

/-- The fresh-state TemporalMemory used as concrete witness input: a
single column of one cell, an empty Connections graph, empty transient
sets. -/
def tmFresh : TemporalMemory :=
  { numColumns := 1, cellsPerColumn := 1, activationThreshold := 1,
    minThreshold := 1, maxNewSynapseCount := 1, initialPermanence := 1/5,
    permanenceIncrement := 1/10, permanenceDecrement := 1/10,
    predictedSegmentDecrement := 0, maxSegmentsPerCell := 1,
    maxSynapsesPerSegment := 1,
    connections := ⟨1, 1/2, [], 0, 0⟩,
    activeCells := [], winnerCells := [], predictiveCells := [],
    anomaly := 0 }

/-- A TemporalMemory in learned steady state on the input pattern
`[0]`: one column, one cell, one segment whose single synapse is
saturated at permanence 1; used as concrete witness input. -/
def tmSteady : TemporalMemory :=
  { numColumns := 1, cellsPerColumn := 1, activationThreshold := 1,
    minThreshold := 1, maxNewSynapseCount := 1, initialPermanence := 1/5,
    permanenceIncrement := 1/10, permanenceDecrement := 1/10,
    predictedSegmentDecrement := 0, maxSegmentsPerCell := 1,
    maxSynapsesPerSegment := 1,
    connections := ⟨1, 1/2, [⟨0, 0, [⟨0, 0, 1⟩]⟩], 1, 1⟩,
    activeCells := [0], winnerCells := [0], predictiveCells := [0],
    anomaly := 0 }

/-- A Connections instance with two segments (handles 0 and 1, creation
order) on cell 5, used as concrete witness input. -/
def connCap : Connections := ⟨10, 0, [⟨0, 5, []⟩, ⟨1, 5, []⟩], 2, 0⟩

/-- The segment used as concrete witness input for the adaptation
claims: two synapses at permanence 1/10, from presynaptic cells 1
and 2. -/
def segAdapt : Segment := ⟨0, 3, [⟨0, 1, 1/10⟩, ⟨1, 2, 1/10⟩]⟩

/-- A Connections instance holding `segAdapt` (on cell 3) and one empty
segment, used as concrete witness input. -/
def connAdapt : Connections := ⟨16, 1/2, [segAdapt, ⟨2, 3, []⟩], 3, 2⟩

/-- The empty segment on cell 4095 used as concrete witness input for
the createSynapse claim (the spec's scenario). -/
def segSyn : Segment := ⟨0, 4095, []⟩

/-- A 4096-cell Connections instance with threshold 0.51 holding
`segSyn`, used as concrete witness input. -/
def connSyn : Connections := ⟨4096, 51/100, [segSyn], 1, 0⟩

/-- The segment used as concrete witness input for the activity claim:
synapses from cells 1 (connected, 3/4) and 2 (unconnected, 1/4). -/
def segAct : Segment := ⟨0, 0, [⟨0, 1, 3/4⟩, ⟨1, 2, 1/4⟩]⟩

/-- An 8-cell Connections instance with threshold 1/2 holding `segAct`,
used as concrete witness input. -/
def connAct : Connections := ⟨8, 1/2, [segAct], 1, 2⟩

/-! ## Helper lemmas about clamping and lists of handles -/

/-- Clamping is the identity on `[0,1]`. -/
theorem clamp01_eq_self (p : ℚ) (h0 : 0 ≤ p) (h1 : p ≤ 1) :
    clamp01 p = p := by
  unfold clamp01
  rw [max_eq_right h0]
  exact min_eq_right h1

/-- Clamping after a nonnegative increment from a nonnegative value is
saturation at 1 only. -/
theorem clamp01_add (p i : ℚ) (hp : 0 ≤ p) (hi : 0 ≤ i) :
    clamp01 (p + i) = min 1 (p + i) := by
  unfold clamp01
  rw [max_eq_right (add_nonneg hp hi)]

/-- Clamping after a nonnegative decrement from a value at most 1 is
saturation at 0 only. -/
theorem clamp01_sub (p d : ℚ) (hp : p ≤ 1) (hd : 0 ≤ d) :
    clamp01 (p - d) = max 0 (p - d) := by
  unfold clamp01
  exact min_eq_right (max_le (by norm_num) (by linarith))

namespace Connections

/-- Lookup by handle commutes with a handle-preserving update map. -/
theorem find?_map_preserve (l : List Segment) (g : Segment → Segment)
    (hg : ∀ s, (g s).segId = s.segId) (t : Nat) :
    (l.map g).find? (fun s => decide (s.segId = t)) =
      (l.find? (fun s => decide (s.segId = t))).map g := by
  rw [List.find?_map]
  have hfun : ((fun s : Segment => decide (s.segId = t)) ∘ g) =
      (fun s : Segment => decide (s.segId = t)) := by
    funext s
    simp [Function.comp, hg]
  rw [hfun]

/-- Lookup of one handle is unaffected by filtering another handle
out. -/
theorem find?_filter_ne (l : List Segment) (sid t : Nat) (h : t ≠ sid) :
    (l.filter (fun s => decide (¬ s.segId = sid))).find?
        (fun s => decide (s.segId = t)) =
      l.find? (fun s => decide (s.segId = t)) := by
  rw [List.find?_filter]
  have hfun : (fun a : Segment =>
      decide ((decide (¬ a.segId = sid)) = true ∧
        (decide (a.segId = t)) = true)) =
      (fun a : Segment => decide (a.segId = t)) := by
    funext a
    by_cases hat : a.segId = t
    · have hns : ¬ a.segId = sid := fun hc => h (by rw [← hat]; exact hc)
      simp [hat, hns, h]
    · simp [hat]
  rw [hfun]

/-- With distinct handles, looking a member's handle up finds exactly
that member. -/
theorem find?_of_mem_nodup (l : List Segment)
    (hnd : (l.map (fun s => s.segId)).Nodup) (seg : Segment)
    (hm : seg ∈ l) :
    l.find? (fun s => decide (s.segId = seg.segId)) = some seg := by
  induction l with
  | nil => cases hm
  | cons a rest ih =>
    rw [List.map_cons, List.nodup_cons] at hnd
    rcases List.mem_cons.mp hm with rfl | hm'
    · exact List.find?_cons_of_pos _ (by simp)
    · have hne : ¬ (decide (a.segId = seg.segId)) = true := by
        simp only [decide_eq_true_eq]
        intro he
        exact hnd.1 (by rw [he]; exact List.mem_map_of_mem (fun s => s.segId) hm')
      rw [List.find?_cons_of_neg (p := fun s => decide (s.segId = seg.segId)) rest hne]
      exact ih hnd.2 hm'

/-- Filtering out the images of the first `n` elements of a
duplicate-free list drops exactly those first `n` elements. -/
theorem filter_not_mem_take {α β : Type} [DecidableEq β] (f : α → β) :
    ∀ (l : List α) (n : Nat), (l.map f).Nodup →
      l.filter (fun x => decide (¬ f x ∈ (l.take n).map f)) = l.drop n := by
  intro l
  induction l with
  | nil => intro n _; simp
  | cons x xs ih =>
    intro n hnd
    rw [List.map_cons, List.nodup_cons] at hnd
    cases n with
    | zero => simp
    | succ m =>
      simp only [List.take_succ_cons, List.map_cons, List.drop_succ_cons]
      rw [List.filter_cons]
      have hx : (decide (¬ f x ∈ f x :: (xs.take m).map f)) = false := by
        simp
      rw [hx]
      have hcong : xs.filter
          (fun y => decide (¬ f y ∈ f x :: (xs.take m).map f)) =
          xs.filter (fun y => decide (¬ f y ∈ (xs.take m).map f)) := by
        refine List.filter_congr (fun y hy => ?_)
        have hne : f y ≠ f x := by
          intro heq
          exact hnd.1 (by rw [← heq]; exact List.mem_map_of_mem f hy)
        simp [hne]
      rw [if_neg (by simp), hcong, ih m hnd.2]

/-- Successful `createSegment`, written without local abbreviations. -/
theorem createSegment_ok_segments (c : Connections) (cell k : Nat)
    (hc : ¬ (c.numCells ≤ cell ∨ k = 0)) :
    c.createSegment cell k = .ok (c.nextSegmentId,
      { c with
        segments := (c.segments.filter (fun s => ¬ s.segId ∈
            ((c.segments.filter (fun s => s.cell = cell)).take
              ((c.segments.filter (fun s => s.cell = cell)).length + 1 - k)).map
              (fun s => s.segId)))
          ++ [⟨c.nextSegmentId, cell, []⟩],
        nextSegmentId := c.nextSegmentId + 1 }) := by
  unfold createSegment
  rw [if_neg hc]

/-- The owned-segment list after a successful `createSegment`: the
oldest owned segments beyond the cap are dropped and the fresh handle is
appended. -/
theorem segmentsForCell_createSegment (c : Connections) (cell k : Nat)
    (hwf : WF c) (hc : cell < c.numCells) (hk : 0 < k) (c' : Connections)
    (h : c.createSegment cell k = .ok (c.nextSegmentId, c')) :
    c'.segmentsForCell cell =
      (c.segmentsForCell cell).drop
          ((c.segmentsForCell cell).length + 1 - k)
        ++ [c.nextSegmentId] := by
  have hcond : ¬ (c.numCells ≤ cell ∨ k = 0) := by
    push_neg
    omega
  rw [createSegment_ok_segments c cell k hcond] at h
  simp only [Except.ok.injEq, Prod.mk.injEq, true_and] at h
  subst h
  have hsub : ((c.segments.filter (fun s => s.cell = cell)).map
      (fun s => s.segId)).Nodup :=
    ((List.filter_sublist c.segments).map (fun s => s.segId)).nodup hwf.1
  unfold segmentsForCell
  simp only [List.filter_append]
  have hnew : (List.filter (fun s => decide (s.cell = cell))
      [(⟨c.nextSegmentId, cell, []⟩ : Segment)]) =
      [⟨c.nextSegmentId, cell, []⟩] := by simp
  rw [hnew]
  have hswap : List.filter (fun s => decide (s.cell = cell))
      (c.segments.filter (fun s => decide (¬ s.segId ∈
        ((c.segments.filter (fun s => s.cell = cell)).take
          ((c.segments.filter (fun s => s.cell = cell)).length + 1 - k)).map
          (fun s => s.segId)))) =
      List.filter (fun s => decide (¬ s.segId ∈
        ((c.segments.filter (fun s => s.cell = cell)).take
          ((c.segments.filter (fun s => s.cell = cell)).length + 1 - k)).map
          (fun s => s.segId)))
        (c.segments.filter (fun s => decide (s.cell = cell))) := by
    rw [List.filter_filter, List.filter_filter]
    exact List.filter_congr (fun s _ => Bool.and_comm _ _)
  rw [hswap]
  rw [filter_not_mem_take (fun s => s.segId)
    (c.segments.filter (fun s => decide (s.cell = cell)))
    ((c.segments.filter (fun s => s.cell = cell)).length + 1 - k) hsub]
  rw [List.map_append, List.map_drop, List.length_map]
  rfl

/-- Updating one handle's segment leaves every other handle's lookup
unchanged. -/
theorem find?_map_if_ne (l : List Segment) (sid t : Nat) (hne : t ≠ sid)
    (F : Segment → Segment) (hF : ∀ s, (F s).segId = s.segId) :
    (l.map (fun sg => if sg.segId = sid then F sg else sg)).find?
        (fun s => decide (s.segId = t)) =
      l.find? (fun s => decide (s.segId = t)) := by
  have hgid : ∀ s : Segment,
      ((fun sg => if sg.segId = sid then F sg else sg) s).segId = s.segId := by
    intro s
    by_cases h : s.segId = sid
    · simp [h, hF]
    · simp [h]
  rw [find?_map_preserve l _ hgid t]
  cases hf : l.find? (fun s => decide (s.segId = t)) with
  | none => rfl
  | some s' =>
    have hps : s'.segId = t := by simpa using List.find?_some hf
    have hid : (if s'.segId = sid then F s' else s') = s' := by
      rw [hps, if_neg hne]
    simp [hid]

/-- A fresh `createSynapse` call (no existing synapse from the
presynaptic cell) appends one clamped synapse under the fresh handle. -/
theorem createSynapse_fresh (c : Connections) (seg : Segment)
    (presyn : Nat) (p : ℚ)
    (hfind : c.segments.find? (fun s => decide (s.segId = seg.segId)) =
      some seg)
    (hpre : presyn < c.numCells)
    (hnone : seg.synapses.find?
      (fun s => decide (s.presynapticCell = presyn)) = none) :
    c.createSynapse seg.segId presyn p = .ok (c.nextSynapseId,
      { c with
        segments := c.segments.map (fun sg =>
          if sg.segId = seg.segId then
            { sg with synapses :=
                sg.synapses ++ [⟨c.nextSynapseId, presyn, clamp01 p⟩] }
          else sg),
        nextSynapseId := c.nextSynapseId + 1 }) := by
  unfold createSynapse
  rw [if_neg (not_le.mpr hpre)]
  simp only [hfind, hnone]

/-- A duplicate `createSynapse` call returns the existing handle and
raises that synapse's permanence to the max of old and new. -/
theorem createSynapse_existing (c : Connections) (seg : Segment)
    (syn : Synapse) (presyn : Nat) (p : ℚ)
    (hfind : c.segments.find? (fun s => decide (s.segId = seg.segId)) =
      some seg)
    (hpre : presyn < c.numCells)
    (hsyn : seg.synapses.find?
      (fun s => decide (s.presynapticCell = presyn)) = some syn) :
    c.createSynapse seg.segId presyn p = .ok (syn.synId,
      { c with
        segments := c.segments.map (fun sg =>
          if sg.segId = seg.segId then
            { sg with synapses := sg.synapses.map (fun s =>
                if s.presynapticCell = presyn then
                  { s with permanence := max s.permanence (clamp01 p) }
                else s) }
          else sg) }) := by
  unfold createSynapse
  rw [if_neg (not_le.mpr hpre)]
  simp only [hfind, hsyn]

/-- Every handle listed for a cell is below the segment counter. -/
theorem mem_segmentsForCell_lt (c : Connections) (hwf : WF c)
    (cell x : Nat) (hx : x ∈ c.segmentsForCell cell) :
    x < c.nextSegmentId := by
  unfold segmentsForCell at hx
  obtain ⟨s, hs, hseq⟩ := List.mem_map.mp hx
  rw [← hseq]
  exact hwf.2.1 s (List.mem_of_mem_filter hs)

/-- The handle list of a cell never repeats a handle. -/
theorem nodup_segmentsForCell (c : Connections) (hwf : WF c)
    (cell : Nat) : (c.segmentsForCell cell).Nodup := by
  unfold segmentsForCell
  exact ((List.filter_sublist c.segments).map (fun s => s.segId)).nodup hwf.1

/-- A disjoint Boolean disjunction splits a `countP` into a sum. -/
theorem countP_or_split (syns : List Synapse) (p q : Synapse → Bool)
    (hdisj : ∀ s, ¬ (p s = true ∧ q s = true)) :
    syns.countP (fun s => p s || q s) =
      syns.countP p + syns.countP q := by
  induction syns with
  | nil => rfl
  | cons x xs ih =>
    simp only [List.countP_cons]
    by_cases hp : p x = true
    · have hq : ¬ q x = true := fun h => hdisj x ⟨hp, h⟩
      simp [hp, hq, ih]
      omega
    · by_cases hq : q x = true
      · simp [hp, hq, ih]
        omega
      · simp [hp, hq, ih]

/-- Splitting a membership test over a fresh head: counts for
`a :: rest` decompose into counts for `a` plus counts for `rest`. -/
theorem countP_presyn_cons (syns : List Synapse) (P : Synapse → Bool)
    (a : Nat) (rest : List Nat) (ha : ¬ a ∈ rest) :
    syns.countP (fun s =>
        decide (s.presynapticCell ∈ a :: rest) && P s) =
      syns.countP (fun s => decide (s.presynapticCell = a) && P s) +
        syns.countP (fun s => decide (s.presynapticCell ∈ rest) && P s) := by
  have hsplit : syns.countP (fun s =>
      decide (s.presynapticCell ∈ a :: rest) && P s) =
      syns.countP (fun s =>
        (decide (s.presynapticCell = a) && P s) ||
          (decide (s.presynapticCell ∈ rest) && P s)) := by
    refine List.countP_congr (fun s _ => ?_)
    by_cases h1 : s.presynapticCell = a
    · by_cases hP : P s = true
      · simp [h1, hP]
      · simp [h1, hP]
    · by_cases h2 : s.presynapticCell ∈ rest
      · by_cases hP : P s = true
        · simp [h1, h2, hP]
        · simp [h1, h2, hP]
      · by_cases hP : P s = true
        · simp [h1, h2, hP]
        · simp [h1, h2, hP]
  rw [hsplit]
  refine countP_or_split syns _ _ (fun s hs => ?_)
  have h1 : s.presynapticCell = a := by
    have := hs.1
    simp only [Bool.and_eq_true, decide_eq_true_eq] at this
    exact this.1
  have h2 : s.presynapticCell ∈ rest := by
    have := hs.2
    simp only [Bool.and_eq_true, decide_eq_true_eq] at this
    exact this.1
  exact ha (h1 ▸ h2)

/-- Summing per-input-cell counts over a duplicate-free input equals one
count with a membership test. -/
theorem sum_countP_presyn (syns : List Synapse) (P : Synapse → Bool) :
    ∀ (inp : List Nat), inp.Nodup →
      (inp.map (fun a => syns.countP
          (fun s => decide (s.presynapticCell = a) && P s))).sum =
        syns.countP (fun s => decide (s.presynapticCell ∈ inp) && P s) := by
  intro inp
  induction inp with
  | nil =>
    intro _
    symm
    rw [List.map_nil, List.sum_nil, List.countP_eq_zero]
    intro s _
    simp
  | cons a rest ih =>
    intro hnd
    rw [List.map_cons, List.sum_cons,
      ih (List.nodup_cons.mp hnd).2,
      countP_presyn_cons syns P a rest (List.nodup_cons.mp hnd).1]

/-- A sum of mapped values over a duplicate-free list collapsing to the
single member where the function is nonzero. -/
theorem sum_map_eq_of_unique (f : Segment → Nat) :
    ∀ (l : List Segment) (x : Segment), x ∈ l → l.Nodup →
      (∀ y ∈ l, y ≠ x → f y = 0) → (l.map f).sum = f x := by
  intro l
  induction l with
  | nil => intro x hx; cases hx
  | cons a rest ih =>
    intro x hx hnd hz
    rw [List.map_cons, List.sum_cons]
    rcases List.mem_cons.mp hx with rfl | hx'
    · have hrest : (rest.map f).sum = 0 := by
        rw [List.sum_eq_zero]
        intro n hn
        obtain ⟨y, hy, rfl⟩ := List.mem_map.mp hn
        refine hz y (List.mem_cons_of_mem _ hy) (fun he => ?_)
        exact (List.nodup_cons.mp hnd).1 (he ▸ hy)
      rw [hrest]
      omega
    · have ha : f a = 0 := by
        refine hz a (List.mem_cons_self a rest) (fun he => ?_)
        exact (List.nodup_cons.mp hnd).1 (he ▸ hx')
      rw [ha, ih x hx' (List.nodup_cons.mp hnd).2
        (fun y hy hyx => hz y (List.mem_cons_of_mem _ hy) hyx)]
      omega

/-- Walking the reverse index of one presynaptic cell and counting the
entries of one segment handle counts exactly that segment's synapses
from that cell (filtered by any permanence test). -/
theorem countP_reverseIndex (c : Connections) (a : Nat) (seg : Segment)
    (hnd : (c.segments.map (fun s => s.segId)).Nodup)
    (hmem : seg ∈ c.segments) (P : ℚ → Bool) :
    ((c.reverseIndex a).filter (fun p => P p.2)).countP
        (fun p => decide (p.1 = seg.segId)) =
      seg.synapses.countP
        (fun s => decide (s.presynapticCell = a) && P s.permanence) := by
  unfold reverseIndex
  rw [List.countP_filter, List.countP_flatMap]
  refine Eq.trans (sum_map_eq_of_unique _ c.segments seg hmem
    (hnd.of_map (fun s => s.segId)) ?_) ?_
  · intro y hy hyx
    have hyid : y.segId ≠ seg.segId := fun he =>
      hyx (List.inj_on_of_nodup_map hnd hy hmem he)
    simp only [Function.comp]
    rw [List.countP_eq_zero]
    intro pr hpr
    obtain ⟨t, ht, hts⟩ := List.mem_map.mp hpr
    rw [← hts]
    simp [hyid]
  · simp only [Function.comp]
    rw [List.countP_map, List.countP_filter]
    refine List.countP_congr (fun s _ => ?_)
    simp [Bool.and_comm]

end Connections

/-! ## Helper lemmas about the per-column pass -/

namespace TemporalMemory

/-- One column of phase 2 bumps the burst counter exactly when the
column holds no predictive cell, whatever branch the bursting logic
takes. -/
theorem processColumn_burst (tm : TemporalMemory) (pa pw : List Nat)
    (ac mc : Nat → Nat) (segs : List Segment) (learn : Bool)
    (st : StepState) (col : Nat) :
    (tm.processColumn pa pw ac mc segs learn st col).burst =
      st.burst +
        (if tm.predictiveCells.filter
            (fun cl => tm.columnForCell cl = col) = [] then 1 else 0) := by
  unfold processColumn
  by_cases h : tm.predictiveCells.filter (fun cl => tm.columnForCell cl = col) = []
  · simp only [h, if_pos rfl, reduceIte]
    split <;> rfl
  · simp only [if_neg h, reduceIte, Nat.add_zero]

/-- Folding phase 2 over the active columns counts exactly the columns
holding no predictive cell. -/
theorem foldl_processColumn_burst (tm : TemporalMemory) (pa pw : List Nat)
    (ac mc : Nat → Nat) (segs : List Segment) (learn : Bool) :
    ∀ (cols : List Nat) (st : StepState),
      (cols.foldl (tm.processColumn pa pw ac mc segs learn) st).burst =
        st.burst + cols.countP (fun col =>
          decide (tm.predictiveCells.filter
            (fun cl => tm.columnForCell cl = col) = [])) := by
  intro cols
  induction cols with
  | nil => intro st; simp
  | cons c rest ih =>
    intro st
    rw [List.foldl_cons, ih, processColumn_burst, List.countP_cons]
    by_cases h : tm.predictiveCells.filter (fun cl => tm.columnForCell cl = c) = []
    · simp [h]
      omega
    · simp [h]

/-- The anomaly score set by phase 2 is the fraction of active columns
holding no predictive cell, and 0 when no column is active. -/
theorem activateCells_anomaly (tm : TemporalMemory) (cols : List Nat)
    (learn : Bool) :
    (tm.activateCells cols learn).anomaly =
      if cols = [] then 0
      else ((cols.countP (fun col =>
          decide (tm.predictiveCells.filter
            (fun cl => tm.columnForCell cl = col) = []))) : ℚ) /
        (cols.length : ℚ) := by
  unfold activateCells
  simp only [foldl_processColumn_burst, Nat.zero_add]

/-- Phase 2 keeps the predictive-cell set and the geometry fields. -/
theorem activateCells_predictiveCells (tm : TemporalMemory)
    (cols : List Nat) (learn : Bool) :
    (tm.activateCells cols learn).predictiveCells = tm.predictiveCells := rfl

end TemporalMemory

/-! ## Claim theorems about the TemporalMemory engine -/

/-- C6: after each TemporalMemory step, the anomaly score equals the
number of active columns containing zero predictive cells divided by
the number of active columns, and is 0 by convention when the
active-column set is empty. -/
theorem anomaly_fraction_of_unpredicted (tm : TemporalMemory)
    (cols : List Nat) (learn : Bool) :
    (tm.compute cols learn).anomaly =
      if cols = [] then 0
      else ((cols.countP (fun col =>
          decide (∀ cl ∈ (tm.activateDendrites learn).predictiveCells,
            (tm.activateDendrites learn).columnForCell cl ≠ col))) : ℚ) /
        (cols.length : ℚ) := by
  unfold TemporalMemory.compute
  rw [TemporalMemory.activateCells_anomaly]
  by_cases h : cols = []
  · simp [h]
  · rw [if_neg h, if_neg h]
    have hcnt : cols.countP (fun col =>
        decide ((tm.activateDendrites learn).predictiveCells.filter
          (fun cl => (tm.activateDendrites learn).columnForCell cl = col) = [])) =
        cols.countP (fun col =>
          decide (∀ cl ∈ (tm.activateDendrites learn).predictiveCells,
            (tm.activateDendrites learn).columnForCell cl ≠ col)) := by
      refine List.countP_congr (fun col _ => ?_)
      simp [List.filter_eq_nil_iff]
    rw [hcnt]

/-- C10: a freshly constructed TemporalMemory whose Connections graph
owns no segments yields an empty predictive-cell set from every
`activateDendrites` call. -/
theorem fresh_tm_no_predictive (tm : TemporalMemory) (learn : Bool)
    (h : tm.connections.segments = []) :
    (tm.activateDendrites learn).predictiveCells = [] := by
  unfold TemporalMemory.activateDendrites
  rw [h]
  rfl

/-- Concrete instantiation of C10 on a fresh one-column engine. -/
theorem fresh_tm_no_predictive_witness :
    tmFresh.connections.segments = [] ∧
      (tmFresh.activateDendrites true).predictiveCells = [] :=
  ⟨rfl, fresh_tm_no_predictive tmFresh true rfl⟩

/-- C7: a TemporalMemory that has learned a repeated input pattern to
steady state (presenting the pattern reproduces the full state, and
every active column holds a predictive cell) yields, on presenting the
same input again, anomaly score 0 and an active-cell set identical to
the previous presentation. -/
theorem learned_steady_state_idempotent (tm : TemporalMemory)
    (inp : List Nat)
    (hfix : tm.compute inp true = tm)
    (hpred : ∀ col ∈ inp, ∃ cl ∈ (tm.activateDendrites true).predictiveCells,
      (tm.activateDendrites true).columnForCell cl = col) :
    (tm.compute inp true).anomaly = 0 ∧
      (tm.compute inp true).activeCells = tm.activeCells := by
  constructor
  · unfold TemporalMemory.compute
    rw [TemporalMemory.activateCells_anomaly]
    by_cases h : inp = []
    · simp [h]
    · rw [if_neg h]
      have hcnt : inp.countP (fun col =>
          decide ((tm.activateDendrites true).predictiveCells.filter
            (fun cl => (tm.activateDendrites true).columnForCell cl = col)
              = [])) = 0 := by
        rw [List.countP_eq_zero]
        intro col hcol
        obtain ⟨cl, hcl, hcd⟩ := hpred col hcol
        simp only [decide_eq_true_eq]
        exact List.ne_nil_of_mem (List.mem_filter.mpr ⟨hcl, by simp [hcd]⟩)
      rw [hcnt]
      simp
  · rw [hfix]

/-- Concrete instantiation of C7 on the saturated one-column engine. -/
theorem learned_steady_state_idempotent_witness :
    tmSteady.compute [0] true = tmSteady ∧
      ((tmSteady.compute [0] true).anomaly = 0 ∧
        (tmSteady.compute [0] true).activeCells = tmSteady.activeCells) := by
  have hfix : tmSteady.compute [0] true = tmSteady := by
    norm_num [tmSteady, TemporalMemory.compute, TemporalMemory.activateDendrites,
      TemporalMemory.activateCells, TemporalMemory.processColumn,
      TemporalMemory.columnForCell, TemporalMemory.cellsForColumn,
      TemporalMemory.growSynapses, Connections.computeActivity,
      Connections.reverseIndex, Connections.adaptSegment,
      Connections.adaptSynapses, Connections.segmentsForCell, clamp01]
  have hpred : ∀ col ∈ ([0] : List Nat),
      ∃ cl ∈ (tmSteady.activateDendrites true).predictiveCells,
        (tmSteady.activateDendrites true).columnForCell cl = col := by
    norm_num [tmSteady, TemporalMemory.activateDendrites,
      TemporalMemory.columnForCell, Connections.computeActivity,
      Connections.reverseIndex]
  exact ⟨hfix, learned_steady_state_idempotent tmSteady [0] hfix hpred⟩

/-! ## Claim theorems about the Connections engine -/

/-- C2: every successful `createSegment(cell, k)` leaves the cell with
at most `k` segments, and when the cell already owns exactly `k`
segments the least-recently-created (oldest) one is destroyed before
the fresh segment is appended. -/
theorem createSegment_cap_oldest_evicted (c : Connections) (cell k : Nat)
    (hwf : Connections.WF c) (hc : cell < c.numCells) (hk : 0 < k) :
    ∃ c', c.createSegment cell k = .ok (c.nextSegmentId, c') ∧
      c'.segmentsForCell cell =
        (c.segmentsForCell cell).drop
            ((c.segmentsForCell cell).length + 1 - k)
          ++ [c.nextSegmentId] ∧
      (c'.segmentsForCell cell).length ≤ k ∧
      ((c.segmentsForCell cell).length = k →
        ∀ oldest, (c.segmentsForCell cell).head? = some oldest →
          ¬ oldest ∈ c'.segmentsForCell cell) := by
  have hcond : ¬ (c.numCells ≤ cell ∨ k = 0) := by
    push_neg
    omega
  refine ⟨_, Connections.createSegment_ok_segments c cell k hcond, ?_⟩
  have hchar := Connections.segmentsForCell_createSegment c cell k hwf hc hk _
    (Connections.createSegment_ok_segments c cell k hcond)
  refine ⟨hchar, ?_, ?_⟩
  · rw [hchar]
    simp only [List.length_append, List.length_drop, List.length_singleton]
    omega
  · intro hlen oldest hhead
    have hnodL : (c.segmentsForCell cell).Nodup :=
      Connections.nodup_segmentsForCell c hwf cell
    rw [hchar, hlen]
    rcases hL : c.segmentsForCell cell with _ | ⟨o, tl⟩
    · rw [hL] at hhead
      cases hhead
    · rw [hL] at hhead hnodL
      have ho : o = oldest := by injection hhead
      subst ho
      have hlt : o < c.nextSegmentId := by
        refine Connections.mem_segmentsForCell_lt c hwf cell o ?_
        rw [hL]
        exact List.mem_cons_self o tl
      intro hmem
      have h1 : k + 1 - k = 1 := by omega
      rw [h1, List.drop_one, List.tail_cons] at hmem
      rcases List.mem_append.mp hmem with hin | hin
      · exact (List.nodup_cons.mp hnodL).1 hin
      · have : o = c.nextSegmentId := by simpa using hin
        omega

/-- Concrete instantiation of C2: cell 5 of `connCap` owns 2 segments;
`createSegment(5, 2)` evicts the oldest handle 0 and appends handle 2,
keeping the cap. -/
theorem createSegment_cap_oldest_evicted_witness :
    Connections.WF connCap ∧
      ∃ c', connCap.createSegment 5 2 = .ok (connCap.nextSegmentId, c') ∧
        c'.segmentsForCell 5 =
          (connCap.segmentsForCell 5).drop
              ((connCap.segmentsForCell 5).length + 1 - 2)
            ++ [connCap.nextSegmentId] ∧
        (c'.segmentsForCell 5).length ≤ 2 ∧
        ((connCap.segmentsForCell 5).length = 2 →
          ∀ oldest, (connCap.segmentsForCell 5).head? = some oldest →
            ¬ oldest ∈ c'.segmentsForCell 5) :=
  ⟨by decide,
    createSegment_cap_oldest_evicted connCap 5 2 (by decide) (by decide)
      (by decide)⟩

/-- C8: `createSegment(cell, maxSegmentsPerCell)` fails with
`InvalidArgument` exactly on an out-of-range cell or a zero cap (no new
state is produced, so counts are untouched); on in-range arguments it
succeeds, returning a fresh handle — one never used before — whose
segment owns zero synapses. -/
theorem createSegment_invalid_argument (c : Connections) (cell k : Nat) :
    (c.numCells ≤ cell ∨ k = 0 →
      c.createSegment cell k = .error .InvalidArgument) ∧
    (cell < c.numCells → 0 < k → Connections.WF c →
      ∃ c', c.createSegment cell k = .ok (c.nextSegmentId, c') ∧
        c'.synapsesForSegment c.nextSegmentId = [] ∧
        ¬ c.nextSegmentId ∈ c.segments.map (fun s => s.segId)) := by
  constructor
  · intro h
    unfold Connections.createSegment
    rw [if_pos h]
  · intro hc hk hwf
    have hcond : ¬ (c.numCells ≤ cell ∨ k = 0) := by
      push_neg
      omega
    refine ⟨_, Connections.createSegment_ok_segments c cell k hcond, ?_, ?_⟩
    · unfold Connections.synapsesForSegment
      have hnone : (c.segments.filter (fun s => decide (¬ s.segId ∈
          ((c.segments.filter (fun s => s.cell = cell)).take
            ((c.segments.filter (fun s => s.cell = cell)).length + 1 - k)).map
            (fun s => s.segId)))).find?
          (fun s => decide (s.segId = c.nextSegmentId)) = none := by
        rw [List.find?_eq_none]
        intro s hs
        have hs' : s ∈ c.segments := List.mem_of_mem_filter hs
        have := hwf.2.1 s hs'
        simp only [decide_eq_true_eq]
        omega
      simp only [List.find?_append, hnone, Option.none_or]
      simp
    · intro hmem
      obtain ⟨s, hs, hseq⟩ := List.mem_map.mp hmem
      have := hwf.2.1 s hs
      omega

/-- Concrete instantiation of C8: on `connCap` (10 cells), cell 22 is
rejected, a zero cap is rejected, and the in-range call succeeds with a
fresh empty segment. -/
theorem createSegment_invalid_argument_witness :
    connCap.createSegment 22 1 = .error .InvalidArgument ∧
    connCap.createSegment 1 0 = .error .InvalidArgument ∧
    (∃ c', connCap.createSegment 5 2 = .ok (connCap.nextSegmentId, c') ∧
      c'.synapsesForSegment connCap.nextSegmentId = [] ∧
      ¬ connCap.nextSegmentId ∈ connCap.segments.map (fun s => s.segId)) :=
  ⟨(createSegment_invalid_argument connCap 22 1).1 (by decide),
   (createSegment_invalid_argument connCap 1 0).1 (by decide),
   (createSegment_invalid_argument connCap 5 2).2 (by decide) (by decide)
     (by decide)⟩

/-- C3: `adaptSegment` updates every synapse on the segment — a synapse
whose presynaptic cell is in `activeInput` moves to
`min 1 (permanence + increment)`, every other one to
`max 0 (permanence - decrement)` — and no synapse on any other segment
changes. -/
theorem adaptSegment_updates_synapses (c : Connections) (seg : Segment)
    (inp : List Nat) (inc dec : ℚ) (hwf : Connections.WF c)
    (hmem : seg ∈ c.segments) (hinc : 0 ≤ inc) (hdec : 0 ≤ dec)
    (hperm : ∀ s ∈ seg.synapses, 0 ≤ s.permanence ∧ s.permanence ≤ 1) :
    (∀ thr,
      (c.adaptSegment seg.segId inp inc dec false thr).synapsesForSegment
          seg.segId =
        seg.synapses.map (fun s =>
          if s.presynapticCell ∈ inp then
            { s with permanence := min 1 (s.permanence + inc) }
          else
            { s with permanence := max 0 (s.permanence - dec) })) ∧
    (∀ (prune : Bool) thr sid', sid' ≠ seg.segId →
      (c.adaptSegment seg.segId inp inc dec prune thr).synapsesForSegment
          sid' =
        c.synapsesForSegment sid') := by
  have hfind : c.segments.find? (fun s => decide (s.segId = seg.segId)) =
      some seg := Connections.find?_of_mem_nodup c.segments hwf.1 seg hmem
  have hadapted : Connections.adaptSynapses seg.synapses inp inc dec =
      seg.synapses.map (fun s =>
        if s.presynapticCell ∈ inp then
          { s with permanence := min 1 (s.permanence + inc) }
        else
          { s with permanence := max 0 (s.permanence - dec) }) := by
    unfold Connections.adaptSynapses
    refine List.map_congr_left (fun s hs => ?_)
    by_cases hm : s.presynapticCell ∈ inp
    · rw [if_pos hm, if_pos hm,
        clamp01_add s.permanence inc (hperm s hs).1 hinc]
    · rw [if_neg hm, if_neg hm,
        clamp01_sub s.permanence dec (hperm s hs).2 hdec]
  constructor
  · intro thr
    unfold Connections.adaptSegment
    simp only [hfind, Bool.false_eq_true, if_false, reduceIte]
    unfold Connections.synapsesForSegment
    rw [Connections.find?_map_preserve c.segments _
      (fun s => by by_cases h : s.segId = seg.segId <;> simp [h]) seg.segId]
    rw [hfind]
    simp [hadapted]
  · intro prune thr sid' hne
    unfold Connections.adaptSegment
    simp only [hfind]
    cases prune with
    | false =>
      simp only [Bool.false_eq_true, if_false, reduceIte]
      unfold Connections.synapsesForSegment
      dsimp only
      rw [Connections.find?_map_if_ne c.segments seg.segId sid' hne
        (fun sg => { sg with synapses :=
          Connections.adaptSynapses seg.synapses inp inc dec })
        (fun s => rfl)]
    | true =>
      simp only [if_true, reduceIte]
      by_cases hlen : ((Connections.adaptSynapses seg.synapses inp inc
          dec).filter (fun s => decide (0 < s.permanence))).length < thr
      · rw [if_pos hlen]
        unfold Connections.synapsesForSegment
        dsimp only
        rw [Connections.find?_filter_ne c.segments seg.segId sid' hne]
      · rw [if_neg hlen]
        unfold Connections.synapsesForSegment
        dsimp only
        rw [Connections.find?_map_if_ne c.segments seg.segId sid' hne
          (fun sg => Segment.mk sg.segId sg.cell
            ((Connections.adaptSynapses seg.synapses inp inc dec).filter
              (fun s => decide (0 < s.permanence))))
          (fun s => rfl)]

/-- C4: with `pruneZeroSynapses` set, `adaptSegment` removes every
synapse whose post-update permanence is ≤ 0, destroys the whole segment
(removing it from its owner's segment list) when the remaining count
drops below `segmentThreshold`, and with `pruneZeroSynapses` unset it
never destroys the segment. -/
theorem adaptSegment_prunes_and_destroys (c : Connections) (seg : Segment)
    (inp : List Nat) (inc dec : ℚ) (hwf : Connections.WF c)
    (hmem : seg ∈ c.segments) :
    (∀ thr,
      ((Connections.adaptSynapses seg.synapses inp inc dec).filter
          (fun s => decide (0 < s.permanence))).length < thr →
        ¬ seg.segId ∈
          (c.adaptSegment seg.segId inp inc dec true thr).segmentsForCell
            seg.cell) ∧
    (∀ thr,
      thr ≤ ((Connections.adaptSynapses seg.synapses inp inc dec).filter
          (fun s => decide (0 < s.permanence))).length →
        (c.adaptSegment seg.segId inp inc dec true thr).synapsesForSegment
            seg.segId =
          (Connections.adaptSynapses seg.synapses inp inc dec).filter
            (fun s => decide (0 < s.permanence))) ∧
    (∀ thr,
      (c.adaptSegment seg.segId inp inc dec false thr).numSegments =
        c.numSegments) := by
  have hfind : c.segments.find? (fun s => decide (s.segId = seg.segId)) =
      some seg := Connections.find?_of_mem_nodup c.segments hwf.1 seg hmem
  refine ⟨?_, ?_, ?_⟩
  · intro thr hlen
    unfold Connections.adaptSegment
    simp only [hfind, if_true, reduceIte, if_pos hlen]
    unfold Connections.segmentsForCell
    dsimp only
    intro hmem'
    obtain ⟨s, hs, hseq⟩ := List.mem_map.mp hmem'
    have hs1 := List.mem_filter.mp hs
    have hs2 := List.mem_filter.mp hs1.1
    have : ¬ s.segId = seg.segId := by simpa using hs2.2
    exact this hseq
  · intro thr hlen
    unfold Connections.adaptSegment
    simp only [hfind, if_true, reduceIte, if_neg (not_lt.mpr hlen)]
    unfold Connections.synapsesForSegment
    dsimp only
    rw [Connections.find?_map_preserve c.segments _
      (fun s => by by_cases h : s.segId = seg.segId <;> simp [h]) seg.segId]
    rw [hfind]
    simp
  · intro thr
    unfold Connections.adaptSegment
    simp only [hfind, Bool.false_eq_true, if_false, reduceIte]
    unfold Connections.numSegments
    dsimp only
    rw [List.length_map]

/-- Concrete instantiation of C3: adapting `segAdapt` with the input
pattern `[1]` increments the synapse from cell 1 and decrements the
synapse from cell 2, and the other segment's synapse list is
untouched. -/
theorem adaptSegment_updates_synapses_witness :
    ((connAdapt.adaptSegment segAdapt.segId [1] (1/10) (1/100)
        false 0).synapsesForSegment segAdapt.segId =
      segAdapt.synapses.map (fun s =>
        if s.presynapticCell ∈ [1] then
          { s with permanence := min 1 (s.permanence + 1/10) }
        else
          { s with permanence := max 0 (s.permanence - 1/100) })) ∧
    ((connAdapt.adaptSegment segAdapt.segId [1] (1/10) (1/100)
        true 0).synapsesForSegment 2 =
      connAdapt.synapsesForSegment 2) := by
  have hperm : ∀ s ∈ segAdapt.synapses,
      0 ≤ s.permanence ∧ s.permanence ≤ 1 := by
    intro s hs
    simp only [segAdapt, List.mem_cons, List.not_mem_nil, or_false] at hs
    rcases hs with rfl | rfl
    · norm_num
    · norm_num
  have h := adaptSegment_updates_synapses connAdapt segAdapt [1]
    (1/10) (1/100) (by decide) (by simp [connAdapt]) (by norm_num)
    (by norm_num) hperm
  exact ⟨h.1 0, h.2 true 0 2 (by decide)⟩

/-- Concrete instantiation of C4 on `segAdapt`: the decayed synapse
reaches permanence 0 and is pruned, a threshold of 2 destroys the
segment, a threshold of 1 keeps it with exactly the surviving synapse,
and pruning off never destroys. -/
theorem adaptSegment_prunes_and_destroys_witness :
    (¬ segAdapt.segId ∈ (connAdapt.adaptSegment segAdapt.segId [1]
        (1/10) (1/10) true 2).segmentsForCell segAdapt.cell) ∧
    ((connAdapt.adaptSegment segAdapt.segId [1] (1/10) (1/10)
        true 1).synapsesForSegment segAdapt.segId =
      (Connections.adaptSynapses segAdapt.synapses [1] (1/10)
        (1/10)).filter (fun s => decide (0 < s.permanence))) ∧
    ((connAdapt.adaptSegment segAdapt.segId [1] (1/10) (1/10)
        false 7).numSegments = connAdapt.numSegments) := by
  have h := adaptSegment_prunes_and_destroys connAdapt segAdapt [1]
    (1/10) (1/10) (by decide) (by simp [connAdapt])
  refine ⟨h.1 2 ?_, h.2.1 1 ?_, h.2.2 7⟩
  · norm_num [Connections.adaptSynapses, segAdapt, clamp01]
  · norm_num [Connections.adaptSynapses, segAdapt, clamp01]

/-- C1: two successive `createSynapse` calls for the same fresh
(segment, presynaptic cell) pair return the same synapse handle both
times, leave exactly one synapse from that cell on the segment — the
second call not changing `numSynapses` — and leave its permanence at
`max p1 p2`. -/
theorem createSynapse_idempotent_max (c : Connections) (seg : Segment)
    (presyn : Nat) (p1 p2 : ℚ) (hwf : Connections.WF c)
    (hmem : seg ∈ c.segments) (hpre : presyn < c.numCells)
    (hfresh : ∀ s ∈ seg.synapses, s.presynapticCell ≠ presyn)
    (hp1 : 0 ≤ p1) (hp1' : p1 ≤ 1) (hp2 : 0 ≤ p2) (hp2' : p2 ≤ 1) :
    ∃ c1 c2,
      c.createSynapse seg.segId presyn p1 = .ok (c.nextSynapseId, c1) ∧
      c1.createSynapse seg.segId presyn p2 = .ok (c.nextSynapseId, c2) ∧
      c2.numSynapses = c1.numSynapses ∧
      c2.synapsesForSegment seg.segId =
        seg.synapses ++ [⟨c.nextSynapseId, presyn, max p1 p2⟩] ∧
      (c2.synapsesForSegment seg.segId).countP
        (fun s => decide (s.presynapticCell = presyn)) = 1 := by
  have hfind : c.segments.find? (fun s => decide (s.segId = seg.segId)) =
      some seg := Connections.find?_of_mem_nodup c.segments hwf.1 seg hmem
  have hnone : seg.synapses.find?
      (fun s => decide (s.presynapticCell = presyn)) = none := by
    rw [List.find?_eq_none]
    intro s hs
    simpa using hfresh s hs
  have hcall1 := Connections.createSynapse_fresh c seg presyn p1 hfind hpre
    hnone
  have hfind1 : ({ c with
      segments := c.segments.map (fun sg =>
        if sg.segId = seg.segId then
          { sg with synapses :=
              sg.synapses ++ [⟨c.nextSynapseId, presyn, clamp01 p1⟩] }
        else sg),
      nextSynapseId := c.nextSynapseId + 1 } : Connections).segments.find?
        (fun s => decide (s.segId = seg.segId)) =
      some { seg with synapses :=
        seg.synapses ++ [⟨c.nextSynapseId, presyn, clamp01 p1⟩] } := by
    dsimp only
    rw [Connections.find?_map_preserve c.segments _
      (fun s => by by_cases h : s.segId = seg.segId <;> simp [h]) seg.segId]
    rw [hfind]
    simp
  have hsyn1 : ({ seg with synapses :=
      seg.synapses ++ [⟨c.nextSynapseId, presyn, clamp01 p1⟩] } :
        Segment).synapses.find?
      (fun s => decide (s.presynapticCell = presyn)) =
      some ⟨c.nextSynapseId, presyn, clamp01 p1⟩ := by
    dsimp only
    rw [List.find?_append, hnone]
    simp
  have hcall2 := Connections.createSynapse_existing _
    { seg with synapses :=
      seg.synapses ++ [⟨c.nextSynapseId, presyn, clamp01 p1⟩] }
    ⟨c.nextSynapseId, presyn, clamp01 p1⟩ presyn p2 hfind1 hpre hsyn1
  have hmap : (seg.synapses ++
      [(⟨c.nextSynapseId, presyn, clamp01 p1⟩ : Synapse)]).map (fun s =>
        if s.presynapticCell = presyn then
          { s with permanence := max s.permanence (clamp01 p2) }
        else s) =
      seg.synapses ++ [(⟨c.nextSynapseId, presyn, max p1 p2⟩ : Synapse)] := by
    rw [List.map_append]
    have h1 : seg.synapses.map (fun s =>
        if s.presynapticCell = presyn then
          { s with permanence := max s.permanence (clamp01 p2) }
        else s) = seg.synapses := by
      have := List.map_congr_left (l := seg.synapses)
        (f := fun s => if s.presynapticCell = presyn then
          { s with permanence := max s.permanence (clamp01 p2) }
        else s) (g := fun s => s)
        (fun s hs => by simp [hfresh s hs])
      simpa using this
    rw [h1]
    simp [clamp01_eq_self p1 hp1 hp1', clamp01_eq_self p2 hp2 hp2']
  have h0 : seg.synapses.countP
      (fun s => decide (s.presynapticCell = presyn)) = 0 := by
    rw [List.countP_eq_zero]
    intro s hs
    simpa using hfresh s hs
  refine ⟨_, _, hcall1, hcall2, ?_, ?_, ?_⟩
  · unfold Connections.numSynapses
    dsimp only
    rw [List.map_map]
    refine congrArg List.sum (List.map_congr_left (fun sg _ => ?_))
    by_cases h : sg.segId = seg.segId
    · simp [Function.comp, h]
    · simp [Function.comp, h]
  · unfold Connections.synapsesForSegment
    dsimp only
    rw [Connections.find?_map_preserve _ _
      (fun s => by by_cases h : s.segId = seg.segId <;> simp [h]) seg.segId]
    rw [hfind1]
    simp [hmap]
  · unfold Connections.synapsesForSegment
    dsimp only
    rw [Connections.find?_map_preserve _ _
      (fun s => by by_cases h : s.segId = seg.segId <;> simp [h]) seg.segId]
    rw [hfind1]
    simp [hmap, h0]

/-- Concrete instantiation of C1 on the spec's scenario: permanences
0.52 then 0.11 yield the same handle and final permanence
max(0.52, 0.11) = 0.52. -/
theorem createSynapse_idempotent_max_witness :
    ∃ c1 c2,
      connSyn.createSynapse segSyn.segId 4095 (52/100) =
        .ok (connSyn.nextSynapseId, c1) ∧
      c1.createSynapse segSyn.segId 4095 (11/100) =
        .ok (connSyn.nextSynapseId, c2) ∧
      c2.numSynapses = c1.numSynapses ∧
      c2.synapsesForSegment segSyn.segId =
        segSyn.synapses ++
          [(⟨connSyn.nextSynapseId, 4095, max (52/100) (11/100)⟩ :
            Synapse)] ∧
      (c2.synapsesForSegment segSyn.segId).countP
        (fun s => decide (s.presynapticCell = 4095)) = 1 :=
  createSynapse_idempotent_max connSyn segSyn 4095 (52/100) (11/100)
    (by decide) (by simp [connSyn]) (by decide)
    (by intro s hs; simp [segSyn] at hs) (by norm_num) (by norm_num)
    (by norm_num) (by norm_num)

/-- C5: `computeActivity` — implemented by walking the reverse
presynaptic-cell→synapse index of each input cell — returns for each
segment the number of its synapses whose presynaptic cell is in the
input, counting only connected synapses (permanence ≥ threshold) when
`connectedOnly` is set and synapses of any permanence otherwise. -/
theorem computeActivity_counts (c : Connections) (inp : List Nat)
    (connectedOnly : Bool) (seg : Segment) (hwf : Connections.WF c)
    (hnd : inp.Nodup) (hmem : seg ∈ c.segments) :
    c.computeActivity inp connectedOnly seg.segId =
      c.segmentActivity inp connectedOnly seg := by
  unfold Connections.computeActivity Connections.segmentActivity
  rw [List.countP_flatMap]
  have hmapeq : inp.map
      ((List.countP fun p : Nat × ℚ => decide (p.1 = seg.segId)) ∘
        fun a => (c.reverseIndex a).filter
          (fun p => !connectedOnly ||
            decide (c.connectedThreshold ≤ p.2))) =
      inp.map (fun a => seg.synapses.countP (fun s =>
        decide (s.presynapticCell = a) &&
          (!connectedOnly ||
            decide (c.connectedThreshold ≤ s.permanence)))) := by
    refine List.map_congr_left (fun a _ => ?_)
    simp only [Function.comp]
    exact Connections.countP_reverseIndex c a seg hwf.1 hmem
      (fun q => !connectedOnly || decide (c.connectedThreshold ≤ q))
  rw [hmapeq,
    Connections.sum_countP_presyn seg.synapses _ inp hnd,
    List.countP_eq_length_filter]

/-- Concrete instantiation of C5 on `connAct` for both the connected
("active") and the any-permanence ("matching") count. -/
theorem computeActivity_counts_witness :
    connAct.computeActivity [1, 2] true segAct.segId =
        connAct.segmentActivity [1, 2] true segAct ∧
      connAct.computeActivity [1, 2] false segAct.segId =
        connAct.segmentActivity [1, 2] false segAct :=
  ⟨computeActivity_counts connAct [1, 2] true segAct (by decide)
      (by decide) (by simp [connAct]),
    computeActivity_counts connAct [1, 2] false segAct (by decide)
      (by decide) (by simp [connAct])⟩

/-! ## Serialization round-trip -/

/-- Serialized naturals parse back to themselves. -/
theorem ratToNat_natCast (n : Nat) : ratToNat (n : ℚ) = n := by
  unfold ratToNat
  rw [Rat.num_natCast]
  exact Int.toNat_natCast n

/-- Parsing a serialized synapse run returns the synapses and the
leftover stream. -/
theorem parseSynapses_encode (syns : List Synapse) (rest : List ℚ) :
    parseSynapses syns.length (encodeSynapses syns ++ rest) =
      some (syns, rest) := by
  induction syns with
  | nil => rfl
  | cons s tl ih =>
    simp only [encodeSynapses, List.flatMap_cons, encodeSynapse,
      List.length_cons, List.cons_append, List.append_assoc,
      List.nil_append]
    simp only [encodeSynapses] at ih
    simp only [parseSynapses, ih, ratToNat_natCast]

/-- Parsing a serialized segment run returns the segments and the
leftover stream. -/
theorem parseSegments_encode (segs : List Segment) (rest : List ℚ) :
    parseSegments segs.length (encodeSegments segs ++ rest) =
      some (segs, rest) := by
  induction segs with
  | nil => rfl
  | cons sg tl ih =>
    simp only [encodeSegments, List.flatMap_cons, encodeSegment,
      List.length_cons, List.cons_append, List.append_assoc,
      List.nil_append]
    simp only [encodeSegments] at ih
    have hsyn := parseSynapses_encode sg.synapses
      (tl.flatMap encodeSegment ++ rest)
    simp only [parseSegments, ratToNat_natCast, hsyn, ih]

/-- Parsing a serialized run of naturals returns them and the leftover
stream. -/
theorem parseNats_encode (l : List Nat) (rest : List ℚ) :
    parseNats l.length ((l.map (fun n : Nat => (n : ℚ))) ++ rest) =
      some (l, rest) := by
  induction l with
  | nil => rfl
  | cons n tl ih =>
    simp only [List.map_cons, List.length_cons, List.cons_append]
    simp only [parseNats, ih, ratToNat_natCast]

/-- Parsing a length-headed cell list returns it and the leftover
stream. -/
theorem parseNatList_encode (l : List Nat) (rest : List ℚ) :
    parseNatList (encodeNats l ++ rest) = some (l, rest) := by
  simp only [encodeNats, List.cons_append, parseNatList,
    ratToNat_natCast, parseNats_encode]

/-- The Connections graph state round-trips through the flat format. -/
theorem deserialize_serialize_conn (c : Connections) (rest : List ℚ) :
    Connections.deserialize (Connections.serialize c ++ rest) =
      some (c, rest) := by
  simp only [Connections.serialize, List.cons_append, List.append_assoc,
    Connections.deserialize, ratToNat_natCast, parseSegments_encode]

/-- The full TemporalMemory state round-trips through the flat
format. -/
theorem deserialize_serialize_tm (tm : TemporalMemory) :
    TemporalMemory.deserialize tm.serialize = some tm := by
  simp only [TemporalMemory.serialize, List.cons_append,
    TemporalMemory.deserialize, deserialize_serialize_conn,
    parseNatList_encode, ratToNat_natCast]

/-- C9: serializing the learned state and deserializing yields an
instance with the same `numCells`, `numSegments`, and `numSynapses`,
and every subsequent `compute` call on the deserialized instance gives
output identical to the original (lossless round-trip). -/
theorem serialization_roundtrip (tm : TemporalMemory) :
    TemporalMemory.deserialize tm.serialize = some tm ∧
    (TemporalMemory.deserialize tm.serialize).map
        (fun t => t.connections.numCells) =
      some tm.connections.numCells ∧
    (TemporalMemory.deserialize tm.serialize).map
        (fun t => t.connections.numSegments) =
      some tm.connections.numSegments ∧
    (TemporalMemory.deserialize tm.serialize).map
        (fun t => t.connections.numSynapses) =
      some tm.connections.numSynapses ∧
    ∀ (cols : List Nat) (learn : Bool),
      (TemporalMemory.deserialize tm.serialize).map
          (fun t => t.compute cols learn) =
        some (tm.compute cols learn) := by
  have h := deserialize_serialize_tm tm
  refine ⟨h, ?_, ?_, ?_, fun cols learn => ?_⟩
  · rw [h]
    rfl
  · rw [h]
    rfl
  · rw [h]
    rfl
  · rw [h]
    rfl

end HTM
